import Mathlib

/-!
Verification of the KGChat extraction-consolidation pipeline.

This file gives a shallow embedding, in Lean 4, of the algorithmic core of
the repository:

* `backend/node_extractor/umls_hierarchy.py` — the semantic-type hierarchy
  (`build_hierarchy_tree`) and the depth-based disambiguation filter
  (`filter_entities_by_hierarchy`, `normalize_entity`);
* `backend/node_extractor/de_node_extractor.py` — the 15-prompt staged
  node extractor (`NodeExtractor.extract`, `_apply_filter`);
* `backend/graph_extractor/de_node_extractor.py` — the 4-cluster staged
  node extractor (`NodeExtractor.extract`, `extract_entities`,
  `llm_filter_entities`, `clean_empty_entities`);
* `backend/graph_extractor/edge_extractor.py` — the relation extractor
  (`EdgeExtractor.extract`);
* `backend/utils/umls_entity_lookup.py` — the compact relation-feature
  builder (`build_umls_prompt_features`, relation-capping part);
* `backend/llm/providers/gemini/gemini_client.py` — the credential-rotating
  retry loop of `GeminiClient.generate`.

Python dictionaries are embedded as insertion-ordered association lists
(`List (κ × α)`), which is faithful to CPython's ordered dicts; network
calls (the generative model, the embedding backend, the ontology store) are
embedded as explicit oracle values of type `Except Unit _`, mirroring the
`try/except` boundaries of the source.
-/

set_option maxRecDepth 4000

/-! ## Association-list primitives (embedding Python `dict` operations) -/

/-- Embeds `m.get(k)` on an insertion-ordered dict represented as an association
list: returns the value at the first occurrence of key `k`, if any. -/
def alookup {κ α : Type} [DecidableEq κ] (k : κ) : List (κ × α) → Option α
  | [] => none
  | (k', v) :: rest => if k' = k then some v else alookup k rest

/-- Embeds `m.get(k, default)`: lookup with a default value. -/
def alookupD {κ α : Type} [DecidableEq κ] (k : κ) (m : List (κ × α)) (d : α) : α :=
  (alookup k m).getD d

/-! ## Python string primitives

`str.strip()` and `str.lower()` are embedded structurally over the
character list of a string (Lean's own `String.trim`/`String.toLower` have
the same meaning but are defined by well-founded recursion on byte
positions, which the kernel cannot evaluate).  Case folding is ASCII, as in
Lean's `Char.toLower`; this matches Python's `str.lower` on the ASCII
entity strings the pipeline handles. -/

/-- Embeds `s.strip()`: remove leading and trailing whitespace. -/
def pyStrip (s : String) : String :=
  ⟨((s.data.dropWhile Char.isWhitespace).reverse.dropWhile Char.isWhitespace).reverse⟩

/-- Embeds `s.lower()` (ASCII case folding). -/
def pyLower (s : String) : String :=
  ⟨s.data.map Char.toLower⟩

namespace UmlsHierarchy

/-! ## `backend/node_extractor/umls_hierarchy.py` -/

/-- The per-cluster entity dictionary `Dict[str, List[str]]`:
semantic-type name ↦ list of extracted entity strings. -/
abbrev TypeEnts := List (String × List String)

/-- The extracted-entities dictionary `Dict[str, Dict[str, List[str]]]`:
cluster name ↦ (semantic type ↦ entities). -/
abbrev ClusterEnts := List (String × TypeEnts)

/-- The hierarchy tree `Dict[str, Dict[str, int]]`:
cluster name ↦ (semantic-type name ↦ depth). -/
abbrev Tree := List (String × List (String × Nat))

/-- Embeds `normalize_entity`: `entity.strip().lower()`. -/
def normalize_entity (s : String) : String := pyLower (pyStrip s)

/-- The lookup `hierarchy_tree.get(cluster_name, {}).get(semantic_type, 0)`
performed by `filter_entities_by_hierarchy`: unknown clusters or semantic
types default to depth 0. -/
def depthOf (tree : Tree) (cluster semType : String) : Nat :=
  alookupD semType (alookupD cluster tree []) 0

/-- One record of `entity_mapping`: the dict
`{"original_entity": …, "semantic_type": …, "cluster": …, "depth": …}`
built for each occurrence of an entity string in the input. -/
structure EMEntry where
  original : String
  semantic_type : String
  cluster : String
  depth : Nat
deriving DecidableEq, Repr

/-- All `entity_mapping` records generated by the nested loop
`for cluster_name, cluster_data in extracted_entities.items(): for
semantic_type, entities in cluster_data.items(): for entity in entities`,
in loop order, each with its `depth` looked up in the tree. -/
def rawEntries (inp : ClusterEnts) (tree : Tree) : List EMEntry :=
  inp.flatMap (fun p =>
    p.2.flatMap (fun q =>
      q.2.map (fun o => ⟨o, q.1, p.1, depthOf tree p.1 q.1⟩)))

/-- Embeds `entity_mapping.setdefault(normalized, []).append(record)`:
append the record to the list at `key`, inserting the key at the end of the
dict if it is new. -/
def emAdd (m : List (String × List EMEntry)) (key : String) (e : EMEntry) :
    List (String × List EMEntry) :=
  match m with
  | [] => [(key, [e])]
  | (k, es) :: rest =>
      if k = key then (k, es ++ [e]) :: rest else (k, es) :: emAdd rest key e

/-- The `entity_mapping` dict: records grouped by normalized entity text,
keys in first-seen order, each group in occurrence order. -/
def entityMapping (inp : ClusterEnts) (tree : Tree) : List (String × List EMEntry) :=
  (rawEntries inp tree).foldl (fun m e => emAdd m (normalize_entity e.original) e) []

/-- The maximum `depth` over a group of records.  The source obtains it as
`sorted(types, key=lambda x: x["depth"], reverse=True)[0]["depth"]` (and as
`max(t["depth"] for t in …)` in the output loop); for a nonempty group both
equal this fold. -/
def maxDepthOf (G : List EMEntry) : Nat :=
  G.foldr (fun e m => max e.depth m) 0

/-- Embeds `max_depth_types = [t for t in … if t["depth"] == max_depth]`: the
records of the group at maximal depth, in group order (Python's sort is
stable, so filtering the descending-sorted list at the maximal depth yields
the same records in the same relative order as filtering the group). -/
def mxOf (G : List EMEntry) : List EMEntry :=
  G.filter (fun e => e.depth = maxDepthOf G)

/-- Embeds `best_semantic_types[ent]`: the single winning record, or `none` when
several records tie at the maximal depth.  A group of size one wins
outright (`types[0]`); otherwise the first maximal record wins if it is the
unique maximal one. -/
def bestOf (G : List EMEntry) : Option EMEntry :=
  if G.length = 1 then G.head?
  else if (mxOf G).length = 1 then (mxOf G).head? else none

/-- The records the output loop appends for one normalized text: the single
winner when `best` is not `None`, otherwise every maximal-depth record. -/
def keptOf (G : List EMEntry) : List EMEntry :=
  match bestOf G with
  | some b => [b]
  | none => mxOf G

/-- Embeds `filtered_entities[cluster].setdefault(semantic_type, [])` followed by
the guarded append `if original_entity not in …: append(original_entity)`,
inside one cluster's dict. -/
def addType (d : TypeEnts) (t o : String) : TypeEnts :=
  match d with
  | [] => [(t, [o])]
  | (t', es) :: rest =>
      if t' = t then (t', if o ∈ es then es else es ++ [o]) :: rest
      else (t', es) :: addType rest t o

/-- Embeds `filtered_entities.setdefault(cluster, {})` followed by the per-type
append above. -/
def addCluster (acc : ClusterEnts) (c t o : String) : ClusterEnts :=
  match acc with
  | [] => [(c, [(t, [o])])]
  | (c', d) :: rest =>
      if c' = c then (c', addType d t o) :: rest else (c', d) :: addCluster rest c t o

/-- Append one winning record into the output structure. -/
def addEntry (acc : ClusterEnts) (e : EMEntry) : ClusterEnts :=
  addCluster acc e.cluster e.semantic_type e.original

/-- Embeds `filter_entities_by_hierarchy`: group all occurrences by normalized
text, pick the maximal-depth classification(s) per text, and rebuild the
cluster ↦ type ↦ entities structure (whose cluster keys are seeded from the
input's keys, `{c: {} for c in extracted_entities.keys()}`). -/
def filter_entities_by_hierarchy (inp : ClusterEnts) (tree : Tree) : ClusterEnts :=
  let em := entityMapping inp tree
  let base : ClusterEnts := inp.map (fun p => (p.1, []))
  em.foldl (fun acc p => (keptOf p.2).foldl addEntry acc) base

/-- The group of `entity_mapping` records whose normalized text is `k`. -/
def groupOf (inp : ClusterEnts) (tree : Tree) (k : String) : List EMEntry :=
  (rawEntries inp tree).filter (fun e => normalize_entity e.original = k)

/-- Entity string `o` is listed under semantic type `t` in the per-cluster
dictionary `d`. -/
def typeMem (d : TypeEnts) (t o : String) : Prop :=
  ∃ q ∈ d, q.1 = t ∧ o ∈ q.2

instance (d : TypeEnts) (t o : String) : Decidable (typeMem d t o) := by
  unfold typeMem; infer_instance

/-- Entity string `o` is listed under cluster `c` and semantic type `t` in
the structure `s`. -/
def tripleMem (s : ClusterEnts) (o c t : String) : Prop :=
  ∃ p ∈ s, p.1 = c ∧ typeMem p.2 t o

instance (s : ClusterEnts) (o c t : String) : Decidable (tripleMem s o c t) := by
  unfold tripleMem; infer_instance

/-- Some entity string normalizing to `e` occurs somewhere in `s`. -/
def textMem (s : ClusterEnts) (e : String) : Prop :=
  ∃ p ∈ s, ∃ q ∈ p.2, ∃ o ∈ q.2, normalize_entity o = e

instance (s : ClusterEnts) (e : String) : Decidable (textMem s e) := by
  unfold textMem; infer_instance

/-! ### Membership characterization of the hierarchy filter -/

lemma typeMem_addType (d : TypeEnts) (t o t' o' : String) :
    typeMem (addType d t o) t' o' ↔ typeMem d t' o' ∨ (t' = t ∧ o' = o) := by
  induction d with
  | nil => simp only [addType, typeMem]; aesop
  | cons q rest ih =>
      obtain ⟨t₁, es⟩ := q
      by_cases h : t₁ = t
      · subst h
        by_cases hmem : o ∈ es
        · simp only [addType, if_pos rfl, if_pos hmem, typeMem, List.mem_cons]
          aesop
        · simp only [addType, if_pos rfl, if_neg hmem, typeMem, List.mem_cons,
            List.mem_append, List.mem_singleton]
          aesop
      · simp only [addType, if_neg h, typeMem, List.mem_cons] at ih ⊢
        aesop

lemma tripleMem_addCluster (acc : ClusterEnts) (c t o o' c' t' : String) :
    tripleMem (addCluster acc c t o) o' c' t' ↔
      tripleMem acc o' c' t' ∨ (o' = o ∧ c' = c ∧ t' = t) := by
  induction acc with
  | nil =>
      simp only [addCluster, tripleMem, typeMem, List.exists_mem_cons_iff]
      aesop
  | cons p rest ih =>
      obtain ⟨c₁, d⟩ := p
      by_cases h : c₁ = c
      · subst h
        simp only [addCluster, eq_self_iff_true, if_true, tripleMem,
          List.exists_mem_cons_iff]
        rw [typeMem_addType]
        aesop
      · simp only [addCluster, if_neg h, tripleMem, List.exists_mem_cons_iff] at ih ⊢
        aesop

lemma tripleMem_foldl_addEntry (l : List EMEntry) (o c t : String) :
    ∀ acc : ClusterEnts,
      tripleMem (l.foldl addEntry acc) o c t ↔
        tripleMem acc o c t ∨
          ∃ e ∈ l, o = e.original ∧ c = e.cluster ∧ t = e.semantic_type := by
  induction l with
  | nil => intro acc; simp
  | cons e rest ih =>
      intro acc
      simp only [List.foldl_cons, ih, addEntry, tripleMem_addCluster, List.mem_cons]
      constructor
      · rintro ((hm | ⟨rfl, rfl, rfl⟩) | ⟨e', he', h⟩)
        · exact Or.inl hm
        · exact Or.inr ⟨e, Or.inl rfl, rfl, rfl, rfl⟩
        · exact Or.inr ⟨e', Or.inr he', h⟩
      · rintro (hm | ⟨e', he' | he', h⟩)
        · exact Or.inl (Or.inl hm)
        · subst he'
          exact Or.inl (Or.inr h)
        · exact Or.inr ⟨e', he', h⟩

lemma tripleMem_foldl_em (em : List (String × List EMEntry)) (o c t : String) :
    ∀ acc : ClusterEnts,
      tripleMem (em.foldl (fun acc p => (keptOf p.2).foldl addEntry acc) acc) o c t ↔
        tripleMem acc o c t ∨
          ∃ p ∈ em, ∃ e ∈ keptOf p.2,
            o = e.original ∧ c = e.cluster ∧ t = e.semantic_type := by
  induction em with
  | nil => intro acc; simp
  | cons p rest ih =>
      intro acc
      simp only [List.foldl_cons, ih, tripleMem_foldl_addEntry, List.mem_cons]
      constructor
      · rintro ((hm | hm) | ⟨p', hp', h⟩)
        · exact Or.inl hm
        · exact Or.inr ⟨p, Or.inl rfl, hm⟩
        · exact Or.inr ⟨p', Or.inr hp', h⟩
      · rintro (hm | ⟨p', hp' | hp', h⟩)
        · exact Or.inl (Or.inl hm)
        · subst hp'
          exact Or.inl (Or.inr h)
        · exact Or.inr ⟨p', hp', h⟩

lemma not_tripleMem_base (inp : ClusterEnts) (o c t : String) :
    ¬ tripleMem (inp.map (fun p => (p.1, ([] : TypeEnts)))) o c t := by
  rintro ⟨p, hp, _, hq⟩
  simp only [List.mem_map] at hp
  obtain ⟨p', _, rfl⟩ := hp
  obtain ⟨q, hq', _⟩ := hq
  exact absurd hq' (List.not_mem_nil q)

lemma alookup_emAdd (m : List (String × List EMEntry)) (k key : String) (e : EMEntry) :
    alookup k (emAdd m key e) =
      if key = k then some (alookupD k m [] ++ [e]) else alookup k m := by
  induction m with
  | nil => by_cases h : key = k <;> simp [emAdd, alookup, alookupD, h]
  | cons p rest ih =>
      obtain ⟨k₁, es⟩ := p
      by_cases h1 : k₁ = key
      · subst h1
        by_cases h2 : k₁ = k <;>
          simp [emAdd, alookup, alookupD, h2]
      · by_cases h2 : k₁ = k
        · subst h2
          have hkey : ¬ key = k₁ := fun h => h1 h.symm
          simp [emAdd, alookup, h1, hkey]
        · simp [emAdd, alookup, alookupD, h1, h2, ih]

lemma alookupD_foldl_emAdd (l : List EMEntry) :
    ∀ (m : List (String × List EMEntry)) (k : String),
      alookupD k (l.foldl (fun m e => emAdd m (normalize_entity e.original) e) m) [] =
        alookupD k m [] ++ l.filter (fun e => normalize_entity e.original = k) := by
  induction l with
  | nil => intro m k; simp
  | cons e rest ih =>
      intro m k
      simp only [List.foldl_cons, ih, List.filter_cons]
      unfold alookupD
      rw [alookup_emAdd]
      by_cases h : normalize_entity e.original = k
      · simp [h, alookupD]
      · simp [h, alookupD]

lemma mem_of_alookup {m : List (String × List EMEntry)} {k : String}
    {v : List EMEntry} (h : alookup k m = some v) : (k, v) ∈ m := by
  induction m with
  | nil => simp [alookup] at h
  | cons p rest ih =>
      obtain ⟨k₁, es⟩ := p
      by_cases h1 : k₁ = k
      · subst h1
        simp only [alookup, if_true, eq_self_iff_true, Option.some.injEq] at h
        simp [h]
      · simp only [alookup, if_neg h1] at h
        exact List.mem_cons_of_mem _ (ih h)

lemma alookup_of_mem_nodup {m : List (String × List EMEntry)} {k : String}
    {v : List EMEntry} (h : (k, v) ∈ m) (hnd : (m.map Prod.fst).Nodup) :
    alookup k m = some v := by
  induction m with
  | nil => simp at h
  | cons p rest ih =>
      obtain ⟨k₁, es⟩ := p
      simp only [List.map_cons, List.nodup_cons] at hnd
      rcases List.mem_cons.mp h with heq | hmem
      · cases heq
        simp [alookup]
      · have hk : k₁ ≠ k := by
          rintro rfl
          exact hnd.1 (List.mem_map_of_mem Prod.fst hmem)
        simp only [alookup, if_neg hk]
        exact ih hmem hnd.2

lemma emAdd_keys (m : List (String × List EMEntry)) (key : String) (e : EMEntry) :
    (emAdd m key e).map Prod.fst =
      if key ∈ m.map Prod.fst then m.map Prod.fst else m.map Prod.fst ++ [key] := by
  induction m with
  | nil => simp [emAdd]
  | cons p rest ih =>
      obtain ⟨k₁, es⟩ := p
      by_cases h1 : k₁ = key
      · subst h1
        simp [emAdd]
      · have : ¬ key = k₁ := fun h => h1 h.symm
        simp [emAdd, h1, ih, this]
        by_cases h2 : key ∈ rest.map Prod.fst <;> simp [h2, this]

lemma emAdd_keys_nodup {m : List (String × List EMEntry)} (key : String) (e : EMEntry)
    (h : (m.map Prod.fst).Nodup) : ((emAdd m key e).map Prod.fst).Nodup := by
  rw [emAdd_keys]
  by_cases hk : key ∈ m.map Prod.fst
  · simpa [hk] using h
  · simp only [hk, if_false]
    simp [List.nodup_append, h, hk]

lemma foldl_emAdd_keys_nodup (l : List EMEntry) :
    ∀ m : List (String × List EMEntry), (m.map Prod.fst).Nodup →
      (((l.foldl (fun m e => emAdd m (normalize_entity e.original) e) m)).map Prod.fst).Nodup := by
  induction l with
  | nil => intro m h; simpa using h
  | cons e rest ih =>
      intro m h
      exact ih _ (emAdd_keys_nodup _ _ h)

lemma em_keys_nodup (inp : ClusterEnts) (tree : Tree) :
    ((entityMapping inp tree).map Prod.fst).Nodup :=
  foldl_emAdd_keys_nodup _ [] (by simp)

lemma em_lookupD (inp : ClusterEnts) (tree : Tree) (k : String) :
    alookupD k (entityMapping inp tree) [] = groupOf inp tree k := by
  unfold entityMapping groupOf
  rw [alookupD_foldl_emAdd]
  simp [alookupD, alookup]

lemma em_value {inp : ClusterEnts} {tree : Tree} {k : String} {G : List EMEntry}
    (hp : (k, G) ∈ entityMapping inp tree) : G = groupOf inp tree k := by
  have h1 := alookup_of_mem_nodup hp (em_keys_nodup inp tree)
  have h2 := em_lookupD inp tree k
  unfold alookupD at h2
  rw [h1] at h2
  simpa using h2

lemma em_mem_of_groupOf_ne_nil {inp : ClusterEnts} {tree : Tree} {k : String}
    (h : groupOf inp tree k ≠ []) :
    (k, groupOf inp tree k) ∈ entityMapping inp tree := by
  cases halk : alookup k (entityMapping inp tree) with
  | none =>
      exfalso
      have h2 := em_lookupD inp tree k
      unfold alookupD at h2
      rw [halk] at h2
      exact h h2.symm
  | some G =>
      have h2 := em_lookupD inp tree k
      unfold alookupD at h2
      rw [halk] at h2
      simp only [Option.getD_some] at h2
      rw [← h2]
      exact mem_of_alookup halk

lemma mem_groupOf {inp : ClusterEnts} {tree : Tree} {k : String} {x : EMEntry} :
    x ∈ groupOf inp tree k ↔
      x ∈ rawEntries inp tree ∧ normalize_entity x.original = k := by
  simp [groupOf]

lemma mem_rawEntries_iff (inp : ClusterEnts) (tree : Tree) (e : EMEntry) :
    e ∈ rawEntries inp tree ↔
      tripleMem inp e.original e.cluster e.semantic_type ∧
        e.depth = depthOf tree e.cluster e.semantic_type := by
  simp only [rawEntries, List.mem_flatMap, List.mem_map, tripleMem, typeMem]
  constructor
  · rintro ⟨p, hp, q, hq, o, ho, rfl⟩
    exact ⟨⟨p, hp, rfl, q, hq, rfl, ho⟩, rfl⟩
  · rintro ⟨⟨p, hp, hc, q, hq, ht, ho⟩, hd⟩
    refine ⟨p, hp, q, hq, e.original, ho, ?_⟩
    cases e
    simp_all

lemma mem_rawEntries_mk (inp : ClusterEnts) (tree : Tree) (o c t : String) :
    (⟨o, t, c, depthOf tree c t⟩ : EMEntry) ∈ rawEntries inp tree ↔
      tripleMem inp o c t := by
  rw [mem_rawEntries_iff]
  simp

/-! ### Maximal-depth selection -/

lemma maxDepthOf_cons (x : EMEntry) (l : List EMEntry) :
    maxDepthOf (x :: l) = max x.depth (maxDepthOf l) := rfl

lemma le_maxDepthOf {G : List EMEntry} {x : EMEntry} (h : x ∈ G) :
    x.depth ≤ maxDepthOf G := by
  induction G with
  | nil => simp at h
  | cons y rest ih =>
      rw [maxDepthOf_cons]
      rcases List.mem_cons.mp h with rfl | h
      · exact le_max_left _ _
      · exact le_trans (ih h) (le_max_right _ _)

lemma exists_maxDepthOf {G : List EMEntry} (h : G ≠ []) :
    ∃ x ∈ G, x.depth = maxDepthOf G := by
  induction G with
  | nil => exact absurd rfl h
  | cons y rest ih =>
      rcases List.eq_nil_or_concat rest with rfl | _
      · exact ⟨y, by simp, by simp [maxDepthOf_cons, maxDepthOf]⟩
      · have hne : rest ≠ [] := by
          rintro rfl
          simp_all
        obtain ⟨x, hx, hxd⟩ := ih hne
        rcases le_total (maxDepthOf rest) y.depth with hle | hle
        · exact ⟨y, by simp, by rw [maxDepthOf_cons, max_eq_left hle]⟩
        · exact ⟨x, by simp [hx], by rw [maxDepthOf_cons, max_eq_right hle, hxd]⟩

lemma mem_mxOf {G : List EMEntry} {x : EMEntry} :
    x ∈ mxOf G ↔ x ∈ G ∧ x.depth = maxDepthOf G := by
  simp [mxOf]

lemma mxOf_subset {G : List EMEntry} : mxOf G ⊆ G :=
  fun _ hx => (mem_mxOf.mp hx).1

lemma mxOf_ne_nil {G : List EMEntry} (h : G ≠ []) : mxOf G ≠ [] := by
  obtain ⟨x, hx, hxd⟩ := exists_maxDepthOf h
  intro hnil
  exact absurd (hnil ▸ mem_mxOf.mpr ⟨hx, hxd⟩) (List.not_mem_nil x)

lemma keptOf_eq_mxOf (G : List EMEntry) : keptOf G = mxOf G := by
  match G with
  | [] => simp [keptOf, bestOf, mxOf]
  | [x] => simp [keptOf, bestOf, mxOf, maxDepthOf]
  | x :: y :: rest =>
      have hlen : (x :: y :: rest).length ≠ 1 := by simp
      unfold keptOf bestOf
      rw [if_neg hlen]
      by_cases h : (mxOf (x :: y :: rest)).length = 1
      · obtain ⟨b, hb⟩ := List.length_eq_one.mp h
        simp [h, hb]
      · simp [h]

lemma maxDepthOf_of_const {G : List EMEntry} {m : Nat}
    (h : ∀ x ∈ G, x.depth = m) (hne : G ≠ []) : maxDepthOf G = m := by
  obtain ⟨y, hy, hyd⟩ := exists_maxDepthOf hne
  rw [← hyd, h y hy]

/-- Central characterization of the hierarchy filter: entity `o` is listed
under cluster `c` and semantic type `t` in the output exactly when the
corresponding `entity_mapping` record is one of the maximal-depth records
of the group of `normalize_entity o`. -/
theorem tripleMem_filter_iff (inp : ClusterEnts) (tree : Tree) (o c t : String) :
    tripleMem (filter_entities_by_hierarchy inp tree) o c t ↔
      (⟨o, t, c, depthOf tree c t⟩ : EMEntry) ∈
        mxOf (groupOf inp tree (normalize_entity o)) := by
  unfold filter_entities_by_hierarchy
  rw [tripleMem_foldl_em]
  constructor
  · rintro (hbase | ⟨p, hp, x, hx, ho, hc, ht⟩)
    · exact absurd hbase (not_tripleMem_base inp o c t)
    · obtain ⟨k, G⟩ := p
      have hG : G = groupOf inp tree k := em_value hp
      rw [keptOf_eq_mxOf] at hx
      have hxG : x ∈ G := mxOf_subset hx
      rw [hG] at hxG
      have hraw : x ∈ rawEntries inp tree := (mem_groupOf.mp hxG).1
      have hnorm : normalize_entity x.original = k := (mem_groupOf.mp hxG).2
      have hdep : x.depth = depthOf tree x.cluster x.semantic_type :=
        ((mem_rawEntries_iff inp tree x).mp hraw).2
      subst ho; subst hc; subst ht
      have hxx : (⟨x.original, x.semantic_type, x.cluster,
          depthOf tree x.cluster x.semantic_type⟩ : EMEntry) = x := by
        cases x; simp_all
      rw [hxx, hnorm, ← hG]
      exact hx
  · intro h
    have hne : groupOf inp tree (normalize_entity o) ≠ [] := by
      intro hnil
      rw [hnil] at h
      simp [mxOf] at h
    refine Or.inr ⟨(normalize_entity o, groupOf inp tree (normalize_entity o)),
      em_mem_of_groupOf_ne_nil hne, ⟨o, t, c, depthOf tree c t⟩, ?_, rfl, rfl, rfl⟩
    rw [keptOf_eq_mxOf]
    exact h

lemma textMem_iff_exists_triple (s : ClusterEnts) (e : String) :
    textMem s e ↔ ∃ o c t, tripleMem s o c t ∧ normalize_entity o = e := by
  simp only [textMem, tripleMem, typeMem]
  constructor
  · rintro ⟨p, hp, q, hq, o, ho, hn⟩
    exact ⟨o, p.1, q.1, ⟨p, hp, rfl, q, hq, rfl, ho⟩, hn⟩
  · rintro ⟨o, c, t, ⟨p, hp, hc, q, hq, ht, ho⟩, hn⟩
    exact ⟨p, hp, q, hq, o, ho, hn⟩

/-- Rebuild of an `entity_mapping` record from its components; holds for
every record drawn from `rawEntries`. -/
lemma emEntry_eta {tree : Tree} {x : EMEntry}
    (hdep : x.depth = depthOf tree x.cluster x.semantic_type) :
    (⟨x.original, x.semantic_type, x.cluster,
      depthOf tree x.cluster x.semantic_type⟩ : EMEntry) = x := by
  cases x; simp_all

lemma tripleMem_filter_of_mem_mx {inp : ClusterEnts} {tree : Tree} {x : EMEntry}
    (hx : x ∈ mxOf (groupOf inp tree (normalize_entity x.original))) :
    tripleMem (filter_entities_by_hierarchy inp tree)
      x.original x.cluster x.semantic_type := by
  have hxG := mxOf_subset hx
  have hraw : x ∈ rawEntries inp tree := (mem_groupOf.mp hxG).1
  have hdep := ((mem_rawEntries_iff inp tree x).mp hraw).2
  exact (tripleMem_filter_iff inp tree x.original x.cluster x.semantic_type).mpr
    (by rw [emEntry_eta hdep]; exact hx)

lemma length_filter_depth_le_one {G : List EMEntry} {m : Nat}
    (hp : G.Pairwise (fun a b => a.depth ≠ b.depth)) :
    (G.filter (fun x => x.depth = m)).length ≤ 1 := by
  induction G with
  | nil => simp
  | cons y rest ih =>
      rw [List.pairwise_cons] at hp
      rw [List.filter_cons]
      by_cases h : y.depth = m
      · have : rest.filter (fun x => x.depth = m) = [] := by
          rw [List.filter_eq_nil_iff]
          intro z hz
          simp only [decide_eq_true_eq]
          intro hzd
          exact hp.1 z hz (h.trans hzd.symm)
        simp [h, this]
      · simpa [h] using ih hp.2

lemma mxOf_eq_singleton {G : List EMEntry} {b : EMEntry}
    (hp : G.Pairwise (fun a b => a.depth ≠ b.depth))
    (hb : b ∈ G) (hbd : b.depth = maxDepthOf G) : mxOf G = [b] := by
  have hmem : b ∈ mxOf G := mem_mxOf.mpr ⟨hb, hbd⟩
  have hlen : (mxOf G).length ≤ 1 := length_filter_depth_le_one hp
  match hmx : mxOf G with
  | [] => rw [hmx] at hmem; simp at hmem
  | [x] =>
      rw [hmx] at hmem
      simp only [List.mem_singleton] at hmem
      rw [hmem]
  | x :: y :: rest => rw [hmx] at hlen; simp at hlen

/-- C1.  For every normalized text whose group of `(cluster, semantic_type)`
records has pairwise distinct depths, the hierarchy filter keeps exactly the
record of maximal depth (where each record's depth was looked up in the tree
with default `0` for unknown pairs, cf. `depthOf`); a text whose records all
live under a single `(cluster, semantic_type)` pair is kept unchanged under
that same pair. -/
theorem c1_hierarchy_filter_max_depth (inp : ClusterEnts) (tree : Tree) (e : String) :
    (groupOf inp tree e ≠ [] →
      (groupOf inp tree e).Pairwise (fun a b => a.depth ≠ b.depth) →
      ∃ b ∈ groupOf inp tree e,
        (∀ x ∈ groupOf inp tree e, x.depth ≤ b.depth) ∧
        ∀ o c t,
          (tripleMem (filter_entities_by_hierarchy inp tree) o c t ∧
              normalize_entity o = e) ↔
            (o = b.original ∧ c = b.cluster ∧ t = b.semantic_type)) ∧
    ((∀ x ∈ groupOf inp tree e, ∀ y ∈ groupOf inp tree e,
        x.cluster = y.cluster ∧ x.semantic_type = y.semantic_type) →
      ∀ o c t,
        (tripleMem (filter_entities_by_hierarchy inp tree) o c t ∧
            normalize_entity o = e) ↔
          (⟨o, t, c, depthOf tree c t⟩ : EMEntry) ∈ groupOf inp tree e) := by
  constructor
  · intro hne hp
    obtain ⟨b, hb, hbd⟩ := exists_maxDepthOf hne
    refine ⟨b, hb, fun x hx => hbd ▸ le_maxDepthOf hx, fun o c t => ?_⟩
    have hmx : mxOf (groupOf inp tree e) = [b] := mxOf_eq_singleton hp hb hbd
    constructor
    · rintro ⟨htm, hno⟩
      have h := (tripleMem_filter_iff inp tree o c t).mp htm
      rw [hno, hmx] at h
      simp only [List.mem_singleton] at h
      subst h
      exact ⟨rfl, rfl, rfl⟩
    · rintro ⟨rfl, rfl, rfl⟩
      have hnorm : normalize_entity b.original = e :=
        (mem_groupOf.mp hb).2
      have htm := @tripleMem_filter_of_mem_mx inp tree b
        (by rw [hnorm, hmx]; simp)
      exact ⟨htm, hnorm⟩
  · intro hsame o c t
    have hconst : ∀ x ∈ groupOf inp tree e, ∀ y ∈ groupOf inp tree e,
        x.depth = y.depth := by
      intro x hx y hy
      have hxd := ((mem_rawEntries_iff inp tree x).mp (mem_groupOf.mp hx).1).2
      have hyd := ((mem_rawEntries_iff inp tree y).mp (mem_groupOf.mp hy).1).2
      obtain ⟨hc, ht⟩ := hsame x hx y hy
      rw [hxd, hyd, hc, ht]
    have hmxiff : ∀ x, x ∈ mxOf (groupOf inp tree e) ↔ x ∈ groupOf inp tree e := by
      intro x
      constructor
      · exact fun hx => mxOf_subset hx
      · intro hx
        have hne : groupOf inp tree e ≠ [] := List.ne_nil_of_mem hx
        exact mem_mxOf.mpr ⟨hx,
          (maxDepthOf_of_const (fun z hz => hconst z hz x hx) hne).symm⟩
    constructor
    · rintro ⟨htm, hno⟩
      have h := (tripleMem_filter_iff inp tree o c t).mp htm
      rw [hno] at h
      exact (hmxiff _).mp h
    · intro h
      have hnorm : normalize_entity o = e := by
        have := (mem_groupOf.mp h).2
        simpa using this
      refine ⟨?_, hnorm⟩
      apply (tripleMem_filter_iff inp tree o c t).mpr
      rw [hnorm]
      exact (hmxiff _).mpr h

/-- C9 (amended).  Applying the hierarchy filter to its own output
preserves exactly which entities are listed under which
`(cluster, semantic_type)` pair. -/
theorem c9_amended_filter_idempotent_membership
    (inp : ClusterEnts) (tree : Tree) (o c t : String) :
    tripleMem (filter_entities_by_hierarchy
        (filter_entities_by_hierarchy inp tree) tree) o c t ↔
      tripleMem (filter_entities_by_hierarchy inp tree) o c t := by
  constructor
  · intro h
    have h1 := (tripleMem_filter_iff _ tree o c t).mp h
    have h2 := mxOf_subset h1
    exact (mem_rawEntries_mk _ tree o c t).mp (mem_groupOf.mp h2).1
  · intro h
    apply (tripleMem_filter_iff _ tree o c t).mpr
    have hraw : (⟨o, t, c, depthOf tree c t⟩ : EMEntry) ∈
        rawEntries (filter_entities_by_hierarchy inp tree) tree :=
      (mem_rawEntries_mk _ tree o c t).mpr h
    have hmemG : (⟨o, t, c, depthOf tree c t⟩ : EMEntry) ∈
        groupOf (filter_entities_by_hierarchy inp tree) tree (normalize_entity o) :=
      mem_groupOf.mpr ⟨hraw, rfl⟩
    have hconst : ∀ x ∈ groupOf (filter_entities_by_hierarchy inp tree) tree
          (normalize_entity o),
        x.depth = maxDepthOf (groupOf inp tree (normalize_entity o)) := by
      intro x hx
      have hxraw := (mem_groupOf.mp hx).1
      have hxn : normalize_entity x.original = normalize_entity o :=
        (mem_groupOf.mp hx).2
      obtain ⟨hxtm, hxd⟩ := (mem_rawEntries_iff _ tree x).mp hxraw
      have hxmx := (tripleMem_filter_iff inp tree
        x.original x.cluster x.semantic_type).mp hxtm
      rw [emEntry_eta hxd, hxn] at hxmx
      exact (mem_mxOf.mp hxmx).2
    have hne : groupOf (filter_entities_by_hierarchy inp tree) tree
        (normalize_entity o) ≠ [] := by
      intro hnil
      rw [hnil] at hmemG
      simp at hmemG
    refine mem_mxOf.mpr ⟨hmemG, ?_⟩
    rw [maxDepthOf_of_const hconst hne]
    exact hconst _ hmemG

/-- C10.  The hierarchy filter preserves the set of normalized entity
texts: it may move an entity between clusters or semantic types, but never
drops a surface text and never introduces a new one. -/
theorem c10_filter_preserves_text_set (inp : ClusterEnts) (tree : Tree) (e : String) :
    textMem (filter_entities_by_hierarchy inp tree) e ↔ textMem inp e := by
  rw [textMem_iff_exists_triple, textMem_iff_exists_triple]
  constructor
  · rintro ⟨o, c, t, htm, hno⟩
    have h := (tripleMem_filter_iff inp tree o c t).mp htm
    have h2 := mxOf_subset h
    exact ⟨o, c, t, (mem_rawEntries_mk inp tree o c t).mp (mem_groupOf.mp h2).1, hno⟩
  · rintro ⟨o, c, t, htm, hno⟩
    have hraw : (⟨o, t, c, depthOf tree c t⟩ : EMEntry) ∈ rawEntries inp tree :=
      (mem_rawEntries_mk inp tree o c t).mpr htm
    have hG : (⟨o, t, c, depthOf tree c t⟩ : EMEntry) ∈ groupOf inp tree e :=
      mem_groupOf.mpr ⟨hraw, hno⟩
    have hne : groupOf inp tree e ≠ [] := fun hnil => by
      rw [hnil] at hG; simp at hG
    obtain ⟨b, hbmx⟩ := List.exists_mem_of_ne_nil _ (mxOf_ne_nil hne)
    have hbG := mxOf_subset hbmx
    have hbn : normalize_entity b.original = e := (mem_groupOf.mp hbG).2
    refine ⟨b.original, b.cluster, b.semantic_type, ?_, hbn⟩
    exact tripleMem_filter_of_mem_mx (by rw [hbn]; exact hbmx)

/-- Concrete input refuting strict idempotence of the hierarchy filter:
text `"x"` appears under `(c0, tx)` (depth 1) and `(c1, t)` (depth 5) and is
won by `(c1, t)`; text `"y"` is tied at depth 5 between `(c0, t0)` and
`(c1, t)`. -/
def inpC9 : ClusterEnts :=
  [("c0", [("tx", ["x"]), ("t0", ["y"])]), ("c1", [("t", ["x", "y"])])]

/-- Hierarchy tree for the idempotence counterexample. -/
def treeC9 : Tree :=
  [("c0", [("tx", 1), ("t0", 5)]), ("c1", [("t", 5)])]

/-- C9 (counterexample).  The hierarchy filter is not idempotent as a
function on the ordered structures Python compares with `==`: on `inpC9`
the first application lists `"x"` before `"y"` under `(c1, t)` (first-seen
order of the texts in the input), while the second application re-encounters
`"y"` first (through its tied copy under `(c0, t0)`) and therefore lists
`"y"` before `"x"`. -/
theorem c9_counterexample :
    filter_entities_by_hierarchy (filter_entities_by_hierarchy inpC9 treeC9) treeC9 ≠
        filter_entities_by_hierarchy inpC9 treeC9 ∧
      filter_entities_by_hierarchy inpC9 treeC9 =
        [("c0", [("t0", ["y"])]), ("c1", [("t", ["x", "y"])])] ∧
      filter_entities_by_hierarchy (filter_entities_by_hierarchy inpC9 treeC9) treeC9 =
        [("c0", [("t0", ["y"])]), ("c1", [("t", ["y", "x"])])] := by
  refine ⟨by decide, by decide, by decide⟩

/-- Concrete input for the C1 witness, distinct-depth case: `"Fever"` under
`(c1, t1)` at depth 1 competes with `"fever "` under `(c1, t2)` at depth 3. -/
def inpC1 : ClusterEnts :=
  [("c1", [("t1", ["Fever"]), ("t2", ["fever "])])]

/-- Hierarchy tree for the C1 witness. -/
def treeC1 : Tree :=
  [("c1", [("t1", 1), ("t2", 3)])]

/-- Concrete input for the C1 witness, single-pair case: the text `fever`
appears twice, but only under the single pair `(c1, t1)`. -/
def inpC1b : ClusterEnts :=
  [("c1", [("t1", ["Fever", "fever"])])]

/-- Witness for C1 at the concrete inputs `inpC1` (pairwise distinct
depths) and `inpC1b` (single `(cluster, semantic_type)` pair). -/
theorem c1_witness :
    (∃ b ∈ groupOf inpC1 treeC1 "fever",
      (∀ x ∈ groupOf inpC1 treeC1 "fever", x.depth ≤ b.depth) ∧
      ∀ o c t,
        (tripleMem (filter_entities_by_hierarchy inpC1 treeC1) o c t ∧
            normalize_entity o = "fever") ↔
          (o = b.original ∧ c = b.cluster ∧ t = b.semantic_type)) ∧
    (∀ o c t,
      (tripleMem (filter_entities_by_hierarchy inpC1b treeC1) o c t ∧
          normalize_entity o = "fever") ↔
        (⟨o, t, c, depthOf treeC1 c t⟩ : EMEntry) ∈ groupOf inpC1b treeC1 "fever") :=
  ⟨(c1_hierarchy_filter_max_depth inpC1 treeC1 "fever").1 (by decide) (by decide),
   (c1_hierarchy_filter_max_depth inpC1b treeC1 "fever").2 (by decide)⟩

/-! ### `build_hierarchy_tree` and the static cluster definitions -/

/-- Embeds the depth computation of `build_hierarchy_tree`: starting from a
node's own `parent_code`, follow parent links while the current id is a key
of the table, counting hops.  The Python `while` loop is modelled with fuel
(one unit per table row, enough for any acyclic table such as
`CLUSTER_DEFINITIONS`; on a cyclic table Python would not terminate). -/
def walkDepth (idToParent : List (String × Option String)) :
    Nat → Option String → Nat
  | _, none => 0
  | 0, some _ => 0
  | fuel + 1, some pid =>
      match alookup pid idToParent with
      | none => 0
      | some nxt => 1 + walkDepth idToParent fuel nxt

/-- Embeds `build_hierarchy_tree`: for each cluster, map every semantic-type
name to its depth (hops from the cluster root, root depth 0). -/
def build_hierarchy_tree
    (defs : List (String × List (String × String × Option String))) : Tree :=
  defs.map (fun p =>
    let idToParent := p.2.map (fun tr => (tr.1, tr.2.2))
    (p.1, p.2.map (fun tr => (tr.2.1, walkDepth idToParent p.2.length tr.2.2))))

/-- The static `CLUSTER_DEFINITIONS` table: per cluster, the list of
`(code, name, parent_code)` triples. -/
def CLUSTER_DEFINITIONS : List (String × List (String × String × Option String)) :=
  [
  ("activity", [
    ("T052", "Activity", none),
    ("T053", "Behavior", some "T052"),
    ("T054", "Social_Behavior", some "T053"),
    ("T055", "Individual_Behavior", some "T053"),
    ("T056", "Daily_or_Recreational_Activity", some "T052"),
    ("T057", "Occupational_Activity", some "T052"),
    ("T058", "Health_Care_Activity", some "T052"),
    ("T059", "Laboratory_Procedure", some "T058"),
    ("T060", "Diagnostic_Procedure", some "T058"),
    ("T061", "Therapeutic_or_Preventive_Procedure", some "T058"),
    ("T062", "Research_Activity", some "T052"),
    ("T063", "Molecular_Biology_Research_Technique", some "T062"),
    ("T064", "Governmental_or_Regulatory_Activity", some "T052"),
    ("T065", "Educational_Activity", some "T052"),
    ("T066", "Machine_Activity", some "T052")
  ]),
  ("phenomenon", [
    ("T067", "Phenomenon_or_Process", none),
    ("T037", "Injury_or_Poisoning", some "T067"),
    ("T068", "Human_caused_Phenomenon_or_Process", some "T067"),
    ("T069", "Environmental_Effect_of_Humans", some "T067"),
    ("T070", "Natural_Phenomenon_or_Process", some "T067"),
    ("T038", "Biologic_Function", some "T067"),
    ("T039", "Physiologic_Function", some "T038"),
    ("T040", "Organism_Function", some "T039"),
    ("T041", "Mental_Process", some "T067"),
    ("T042", "Organ_or_Tissue_Function", some "T067"),
    ("T043", "Cell_Function", some "T042"),
    ("T044", "Molecular_Function", some "T043"),
    ("T045", "Genetic_Function", some "T044"),
    ("T049", "Cell_or_Molecular_Dysfunction", some "T044"),
    ("T046", "Pathologic_Function", some "T067"),
    ("T047", "Disease_or_Syndrome", some "T046"),
    ("T048", "Mental_or_Behavioral_Dysfunction", some "T046"),
    ("T191", "Neoplastic_Process", some "T046"),
    ("T050", "Experimental_Model_of_Disease", some "T046")
  ]),
  ("physical_object", [
    ("T072", "Physical_Object", none),
    ("T001", "Organism", some "T072"),
    ("T005", "Virus", some "T001"),
    ("T007", "Bacterium", some "T001"),
    ("T194", "Archaeon", some "T001"),
    ("T204", "Eukaryote", some "T001"),
    ("T002", "Plant", some "T204"),
    ("T004", "Fungus", some "T204"),
    ("T008", "Animal", some "T204"),
    ("T010", "Vertebrate", some "T008"),
    ("T011", "Amphibian", some "T010"),
    ("T012", "Bird", some "T010"),
    ("T013", "Fish", some "T010"),
    ("T014", "Reptile", some "T010"),
    ("T015", "Mammal", some "T010"),
    ("T016", "Human", some "T015"),
    ("T017", "Anatomical_Structure", some "T072"),
    ("T018", "Embryonic_Structure", some "T017"),
    ("T021", "Fully_Formed_Anatomical_Structure", some "T017"),
    ("T023", "Body_Part_Organ_or_Organ_Component", some "T021"),
    ("T024", "Tissue", some "T021"),
    ("T025", "Cell", some "T021"),
    ("T026", "Cell_Component", some "T021"),
    ("T028", "Gene_or_Genome", some "T021"),
    ("T190", "Anatomical_Abnormality", some "T017"),
    ("T019", "Congenital_Abnormality", some "T190"),
    ("T020", "Acquired_Abnormality", some "T190"),
    ("T073", "Manufactured_Object", some "T072"),
    ("T074", "Medical_Device", some "T073"),
    ("T203", "Drug_Delivery_Device", some "T074"),
    ("T075", "Research_Device", some "T073"),
    ("T200", "Clinical_Drug", some "T073"),
    ("T167", "Substance", some "T072"),
    ("T031", "Body_Substance", some "T167"),
    ("T103", "Chemical", some "T167"),
    ("T104", "Chemical_Viewed_Structurally", some "T103"),
    ("T109", "Organic_Chemical", some "T104"),
    ("T114", "Nucleic_Acid_Nucleoside_or_Nucleotide", some "T109"),
    ("T116", "Amino_Acid_Peptide_or_Protein", some "T109"),
    ("T196", "Element_Ion_or_Isotope", some "T104"),
    ("T197", "Inorganic_Chemical", some "T104"),
    ("T120", "Chemical_Viewed_Functionally", some "T103"),
    ("T121", "Pharmacologic_Substance", some "T120"),
    ("T195", "Antibiotic", some "T121"),
    ("T122", "Biomedical_or_Dental_Material", some "T120"),
    ("T123", "Biologically_Active_Substance", some "T120"),
    ("T125", "Hormone", some "T123"),
    ("T126", "Enzyme", some "T123"),
    ("T127", "Vitamin", some "T123"),
    ("T129", "Immunologic_Factor", some "T123"),
    ("T192", "Receptor", some "T123"),
    ("T130", "Indicator_Reagent_or_Diagnostic_Aid", some "T120"),
    ("T131", "Hazardous_or_Poisonous_Substance", some "T120"),
    ("T168", "Food", some "T167")
  ]),
  ("conceptual_entity", [
    ("T077", "Conceptual_Entity", none),
    ("T032", "Organism_Attribute", some "T077"),
    ("T201", "Clinical_Attribute", some "T032"),
    ("T033", "Finding", some "T077"),
    ("T034", "Laboratory_or_Test_Result", some "T033"),
    ("T184", "Sign_or_Symptom", some "T033"),
    ("T078", "Idea_or_Concept", some "T077"),
    ("T079", "Temporal_Concept", some "T078"),
    ("T080", "Qualitative_Concept", some "T078"),
    ("T081", "Quantitative_Concept", some "T078"),
    ("T082", "Spatial_Concept", some "T078"),
    ("T029", "Body_Location_or_Region", some "T082"),
    ("T030", "Body_Space_or_Junction", some "T082"),
    ("T083", "Geographic_Area", some "T082"),
    ("T085", "Molecular_Sequence", some "T082"),
    ("T086", "Nucleotide_Sequence", some "T085"),
    ("T087", "Amino_Acid_Sequence", some "T085"),
    ("T088", "Carbohydrate_Sequence", some "T085"),
    ("T169", "Functional_Concept", some "T078"),
    ("T022", "Body_System", some "T169"),
    ("T090", "Occupation_or_Discipline", some "T077"),
    ("T091", "Biomedical_Occupation_or_Discipline", some "T090"),
    ("T092", "Organization", some "T077"),
    ("T093", "Health_Care_Related_Organization", some "T092"),
    ("T094", "Professional_Society", some "T092"),
    ("T095", "Self_help_or_Relief_Organization", some "T092"),
    ("T096", "Group", some "T077"),
    ("T097", "Professional_or_Occupational_Group", some "T096"),
    ("T098", "Population_Group", some "T096"),
    ("T099", "Family_Group", some "T096"),
    ("T100", "Age_Group", some "T096"),
    ("T101", "Patient_or_Disabled_Group", some "T096"),
    ("T102", "Group_Attribute", some "T077"),
    ("T170", "Intellectual_Product", some "T077"),
    ("T089", "Regulation_or_Law", some "T170"),
    ("T185", "Classification", some "T170"),
    ("T171", "Language", some "T077")
  ])
  ]

end UmlsHierarchy

namespace UmlsNodeExtractor

/-! ## `backend/node_extractor/de_node_extractor.py`

`NodeExtractor.extract` drives 15 per-group prompts, an optional LLM
filter stage (`_apply_filter`), and an embedding stage.  The generative
model together with the tolerant response parsing
(`_safe_parse_json` / `_extract_entities_from_parsed`) is the oracle
boundary: each of the 15 stage-1 calls is an `Except Unit` value carrying
the parsed `(name, semantic_type)` pairs on success (`.error` is the
`except Exception: continue` path); the filter call's oracle carries
`none` when `_safe_parse_json` produced nothing and the parsed candidate
pairs otherwise; the encoder is a function-valued oracle. -/

/-- One record of the returned list:
`{"name": …, "semantic_type": …, "name_embedding": …}`, where the
embedding is `None` exactly when the encoder call failed (or the encoder
returned fewer vectors than entities). -/
structure NERecord where
  name : String
  semantic_type : String
  name_embedding : Option (List Int)
deriving DecidableEq, Repr

/-- Stage 1 aggregation: `found` collects the parsed `(name, sem)` pairs of
every prompt in order; a failed prompt contributes nothing
(`except Exception: continue`). -/
def foundOf (stage1 : List (Except Unit (List (String × String)))) :
    List (String × String) :=
  stage1.foldl (fun acc r => match r with | .error _ => acc | .ok es => acc ++ es) []

/-- The `use_filter = False` branch of stage 2: deduplicate candidates on
the key `(name.strip().lower(), sem.strip().lower())`, keeping first-seen
order and the stripped `(name, sem)` pair. -/
def dedupCandidates (found : List (String × String)) : List (String × String) :=
  (found.foldl
    (fun (st : List (String × String) × List (String × String)) p =>
      let key := (pyLower (pyStrip p.1), pyLower (pyStrip p.2))
      if key ∈ st.1 then st else (st.1 ++ [key], st.2 ++ [(pyStrip p.1, pyStrip p.2)]))
    ([], [])).2

/-- Embeds `_apply_filter`: empty candidate lists short-circuit to `[]`;
a raised filter call (`.error`) or an unparseable response (`.ok none`)
falls back to the raw candidates; a parsed response is reduced to its
nonempty stripped names, falling back to the raw candidates when nothing
survives.  The `text` argument only populates the prompt. -/
def applyFilter (text : String)
    (filterResp : Except Unit (Option (List (String × String))))
    (raw : List (String × String)) : List (String × String) :=
  if raw = [] then []
  else
    match filterResp with
    | .error _ => raw
    | .ok none => raw
    | .ok (some l) =>
        let fe := l.filterMap (fun p =>
          let n := pyStrip p.1
          if n = "" then none else some (n, pyStrip p.2))
        if fe = [] then raw else fe

/-- Stage 2 of `extract`: the `unique` candidate list, via `_apply_filter`
when `use_filter` is set and via case-insensitive deduplication otherwise. -/
def stage2 (stage1 : List (Except Unit (List (String × String))))
    (filterResp : Except Unit (Option (List (String × String))))
    (useFilter : Bool) (text : String) : List (String × String) :=
  if useFilter then applyFilter text filterResp (foundOf stage1)
  else dedupCandidates (foundOf stage1)

/-- Embeds `NodeExtractor.extract` (15-prompt variant): empty input and
empty stage-1/stage-2 results return `[]`; otherwise the surviving pairs
are returned with `name_embedding` equal to the encoder's i-th vector when
available and `None` otherwise — in particular `None` for every record
when the encoder call raises. -/
def extract (stage1 : List (Except Unit (List (String × String))))
    (filterResp : Except Unit (Option (List (String × String))))
    (useFilter : Bool)
    (embed : List String → Except Unit (List (List Int)))
    (text : String) : List NERecord :=
  if pyStrip text = "" then []
  else if foundOf stage1 = [] then []
  else
    let unique := stage2 stage1 filterResp useFilter text
    if unique = [] then []
    else
      match embed (unique.map (·.1)) with
      | .error _ => unique.map (fun p => ⟨p.1, p.2, none⟩)
      | .ok embs => unique.enum.map (fun ip => ⟨ip.2.1, ip.2.2, embs[ip.1]?⟩)

end UmlsNodeExtractor

namespace GraphNodeExtractor

open UmlsHierarchy

/-! ## `backend/graph_extractor/de_node_extractor.py`

`NodeExtractor.extract` runs four per-cluster extraction calls (Stage 1),
the hierarchy filter (Stage 2), one contextual LLM filter call (Stage 3)
and an embedding call (Stage 4).  The file imports
`build_hierarchy_tree` / `filter_entities_by_hierarchy` from
`backend.graph_extractor.umls_hierarchy`, whose implementation in this
snapshot lives at `backend/node_extractor/umls_hierarchy.py` (same public
names); the embedding above is used.  Each model call is an oracle value:
cluster calls carry the structured per-type entity dict, the filter call
carries the `ValidatedEntity.entities` list, and the encoder is a
function-valued oracle; `.error` is the corresponding `except Exception`
path. -/

/-- The `Entity` schema of `backend/graph_extractor/schema.py`. -/
structure GEEntity where
  name : String
  semantic_type : String
  mention : String
deriving DecidableEq, Repr

/-- One record of the returned list:
`{"name": …, "semantic_type": …, "embedding": …}` (no optional field). -/
structure GERecord where
  name : String
  semantic_type : String
  embedding : List Int
deriving DecidableEq, Repr

/-- The oracle for one `extract` run: outcomes of the four cluster calls,
the contextual-filter call, and the encoder. -/
structure GEOracle where
  activity : Except Unit TypeEnts
  phenomenon : Except Unit TypeEnts
  physical_object : Except Unit TypeEnts
  conceptual_entity : Except Unit TypeEnts
  filterResp : Except Unit (List GEEntity)
  embed : List String → Except Unit (List (List Int))

/-- Embeds `clean_empty_entities`: keep only keys whose value is a
nonempty list. -/
def clean_empty_entities (r : TypeEnts) : TypeEnts :=
  r.filter (fun p => ¬ p.2 = [])

/-- Embeds `extract_entities`: empty input returns `[]`; a successful call
is cleaned of empty lists; a raised call degrades to the empty result. -/
def extract_entities (text : String) (resp : Except Unit TypeEnts) : TypeEnts :=
  if pyStrip text = "" then []
  else
    match resp with
    | .ok r => clean_empty_entities r
    | .error _ => []

/-- The `all_entities` dict aggregated from the four cluster calls. -/
def allEntities (o : GEOracle) (text : String) : ClusterEnts :=
  [("activity", extract_entities text o.activity),
   ("phenomenon", extract_entities text o.phenomenon),
   ("physical_object", extract_entities text o.physical_object),
   ("conceptual_entity", extract_entities text o.conceptual_entity)]

/-- The constructor's `build_hierarchy_tree(CLUSTER_DEFINITIONS)`. -/
def hierarchyTree : Tree :=
  build_hierarchy_tree CLUSTER_DEFINITIONS

/-- Embeds `llm_filter_entities`: an empty entity dict short-circuits to
`{}`; a raised filter call returns `{}`; a successful call is
`clean_empty_entities` of `{"entities": …}`, which keeps the key exactly
when the list is nonempty. -/
def llm_filter_entities (o : GEOracle) (text : String) (filtered : ClusterEnts) :
    List (String × List GEEntity) :=
  if filtered = [] then []
  else
    match o.filterResp with
    | .error _ => []
    | .ok ents => if ents = [] then [] else [("entities", ents)]

/-- Stage-2 value of `extract`: the hierarchy-filtered entity dict. -/
def stage2Entities (o : GEOracle) (text : String) : ClusterEnts :=
  filter_entities_by_hierarchy (allEntities o text) hierarchyTree

/-- Embeds `NodeExtractor.extract` (4-cluster variant).  Stage 4 keeps the
entities with nonempty stripped names and pairs them positionally with the
embedding vectors; when the encoder raises, `name_embeddings` is `[]` and
the output loop therefore produces the empty list. -/
def extract (o : GEOracle) (text : String) : List GERecord :=
  let filtered := stage2Entities o text
  let llmf := llm_filter_entities o text filtered
  let entitiesList := alookupD "entities" llmf ([] : List GEEntity)
  if entitiesList = [] then []
  else
    let pairs := entitiesList.filterMap (fun e =>
      let n := pyStrip e.name
      if n = "" then none else some (n, pyStrip e.semantic_type))
    if pairs.map (·.1) = [] then []
    else
      let embs := match o.embed (pairs.map (·.1)) with
                  | .ok es => es
                  | .error _ => []
      pairs.enum.filterMap (fun ip => (embs[ip.1]?).map (fun emb => ⟨ip.2.1, ip.2.2, emb⟩))

end GraphNodeExtractor

/-! ## Claims about the staged extraction pipelines -/

/-- Contiguous-sublist search over character lists (the check the spec's
deterministic evidence guard would perform). -/
def charsContain (needle : List Char) : List Char → Bool
  | [] => needle.isEmpty
  | c :: rest => needle.isPrefixOf (c :: rest) || charsContain needle rest

/-- Case-insensitive verbatim occurrence, via the character-level search
above. -/
def occursVerbatimCI (needle hay : String) : Bool :=
  charsContain (pyLower needle).data (pyLower hay).data

namespace UmlsNodeExtractor

/-- Stage-1 oracle for the C2 counterexample: the first of the 15 prompts
returns the hallucinated candidate `pneumonia`, the rest return nothing. -/
def stage1C2 : List (Except Unit (List (String × String))) :=
  .ok [("pneumonia", "Disease_or_Syndrome")] :: List.replicate 14 (.ok [])

/-- Encoder oracle that embeds every name as `[1]`. -/
def embedOk : List String → Except Unit (List (List Int)) :=
  fun ns => .ok (ns.map (fun _ => [1]))

/-- C2 (counterexample).  With the LLM contextual filter disabled, the
remaining — fully deterministic — pipeline of `extract` keeps the
candidate `pneumonia` for the chunk `"Patient has fever."` even though the
text does not contain it (case-insensitively): no deterministic evidence
guard exists in the pipeline. -/
theorem c2_counterexample :
    (extract stage1C2 (.ok none) false embedOk "Patient has fever.").map
        (·.name) = ["pneumonia"] ∧
      occursVerbatimCI "pneumonia" "Patient has fever." = false := by
  refine ⟨by decide, by decide⟩

/-- C2 (amended).  The entity-extraction pipeline contains no deterministic
evidence guard: with the contextual filter disabled, the names returned by
`extract` are exactly the case-insensitively deduplicated, stripped stage-1
candidate names — independent of whether they occur in the chunk, of their
length, and of any punctuation they contain. -/
theorem c2_amended_no_deterministic_guard
    (stage1 : List (Except Unit (List (String × String))))
    (filterResp : Except Unit (Option (List (String × String))))
    (embed : List String → Except Unit (List (List Int)))
    (text : String) (htext : pyStrip text ≠ "") :
    (extract stage1 filterResp false embed text).map (·.name) =
      (dedupCandidates (foundOf stage1)).map (·.1) := by
  unfold extract
  rw [if_neg htext]
  by_cases hfound : foundOf stage1 = []
  · simp [hfound, dedupCandidates]
  · rw [if_neg hfound]
    have hst : stage2 stage1 filterResp false text =
        dedupCandidates (foundOf stage1) := rfl
    simp only [hst]
    by_cases hu : dedupCandidates (foundOf stage1) = []
    · simp [hu]
    · rw [if_neg hu]
      cases embed ((dedupCandidates (foundOf stage1)).map (·.1)) with
      | error _ => simp [List.map_map]
      | ok embs =>
          simp only [List.map_map]
          have := List.enum_map_snd (dedupCandidates (foundOf stage1))
          calc (dedupCandidates (foundOf stage1)).enum.map
                  ((fun r : NERecord => r.name) ∘ fun ip => ⟨ip.2.1, ip.2.2, embs[ip.1]?⟩)
              = (dedupCandidates (foundOf stage1)).enum.map (Prod.fst ∘ Prod.snd) := rfl
            _ = ((dedupCandidates (foundOf stage1)).enum.map Prod.snd).map Prod.fst := by
                rw [List.map_map]
            _ = (dedupCandidates (foundOf stage1)).map (·.1) := by rw [this]

/-- Witness for the amended C2 at the concrete counterexample input. -/
theorem c2_amended_witness :
    (extract stage1C2 (.ok none) false embedOk "Patient has fever.").map (·.name) =
      (dedupCandidates (foundOf stage1C2)).map (·.1) :=
  c2_amended_no_deterministic_guard stage1C2 (.ok none) embedOk
    "Patient has fever." (by decide)

end UmlsNodeExtractor

namespace GraphNodeExtractor

lemma extract_entities_error (text : String) :
    extract_entities text (.error ()) = [] := by
  by_cases h : pyStrip text = "" <;> simp [extract_entities, h]

lemma extract_entities_ok_nil (text : String) :
    extract_entities text (.ok []) = [] := by
  by_cases h : pyStrip text = "" <;> simp [extract_entities, h, clean_empty_entities]

lemma extract_congr {o o' : GEOracle} (text : String)
    (hall : allEntities o text = allEntities o' text)
    (hfr : o.filterResp = o'.filterResp) (hemb : o.embed = o'.embed) :
    extract o text = extract o' text := by
  unfold extract stage2Entities llm_filter_entities
  rw [hall, hfr, hemb]

/-- Oracle for a fully successful run: the activity cluster extracts
`walking`, the contextual filter confirms it, the encoder embeds every
name as `[1]`. -/
def oSuccess : GEOracle :=
  { activity := .ok [("Activity", ["walking"])]
    phenomenon := .ok []
    physical_object := .ok []
    conceptual_entity := .ok []
    filterResp := .ok [⟨"walking", "Activity", "walking"⟩]
    embed := fun ns => .ok (ns.map (fun _ => [1])) }

/-- Oracle whose Stage-3 contextual-filter call raises. -/
def oFilterFail : GEOracle := { oSuccess with filterResp := .error () }

/-- Oracle whose Stage-4 encoder call raises. -/
def oEmbedFail : GEOracle := { oSuccess with embed := fun _ => .error () }

/-- Oracle whose phenomenon cluster call raises. -/
def oPhenomenonFail : GEOracle := { oSuccess with phenomenon := .error () }

/-- C4 (counterexample).  In the 4-cluster pipeline a Stage-3 filter
failure empties the run: with the activity cluster having extracted
`walking` (still present after the Stage-2 hierarchy filter), a raised
filter call makes `extract` return `[]` — the Stage-2 entities are
silently discarded rather than carried to Stage 4. -/
theorem c4_counterexample :
    UmlsHierarchy.tripleMem
        (stage2Entities oFilterFail "The patient was walking daily.")
        "walking" "activity" "Activity" ∧
      extract oFilterFail "The patient was walking daily." = [] := by
  refine ⟨by decide, by decide⟩

/-- C4 (amended).  In the 15-prompt pipeline the claim holds:
`_apply_filter` returns the raw candidates unchanged when the filter call
raises or its response is unparseable.  In the 4-cluster pipeline it does
not: a raised filter call yields the empty dict and `extract` returns
`[]`, whatever the earlier stages produced. -/
theorem c4_amended_filter_fallback :
    (∀ (text : String) (raw : List (String × String)),
        UmlsNodeExtractor.applyFilter text (.error ()) raw = raw) ∧
    (∀ (text : String) (raw : List (String × String)),
        UmlsNodeExtractor.applyFilter text (.ok none) raw = raw) ∧
    (∀ (o : GEOracle) (text : String),
        o.filterResp = .error () → extract o text = []) := by
  refine ⟨?_, ?_, ?_⟩
  · intro text raw
    by_cases h : raw = [] <;> simp [UmlsNodeExtractor.applyFilter, h]
  · intro text raw
    by_cases h : raw = [] <;> simp [UmlsNodeExtractor.applyFilter, h]
  · intro o text hfr
    simp [extract, llm_filter_entities, hfr, alookupD, alookup]

/-- Witness for the amended C4: the filter-failure fallback evaluated at
concrete candidates, and the 4-cluster pipeline evaluated at the concrete
failing oracle. -/
theorem c4_amended_witness :
    UmlsNodeExtractor.applyFilter "Patient has fever."
        (.error ()) [("fever", "Finding")] = [("fever", "Finding")] ∧
      UmlsNodeExtractor.applyFilter "Patient has fever."
        (.ok none) [("fever", "Finding")] = [("fever", "Finding")] ∧
      extract oFilterFail "The patient was walking daily." = [] :=
  ⟨c4_amended_filter_fallback.1 "Patient has fever." [("fever", "Finding")],
   c4_amended_filter_fallback.2.1 "Patient has fever." [("fever", "Finding")],
   c4_amended_filter_fallback.2.2 oFilterFail "The patient was walking daily." rfl⟩

/-- C6 (counterexample).  In the 4-cluster pipeline an embedding failure
empties the whole chunk: the surviving entity `walking` reaches Stage 4,
but the raised encoder call leaves `name_embeddings = []` and `extract`
returns `[]` instead of one record per surviving entity with an absent
embedding (this pipeline's records have no optional embedding field at
all). -/
theorem c6_counterexample :
    alookupD "entities"
        (llm_filter_entities oEmbedFail "The patient was walking daily."
          (stage2Entities oEmbedFail "The patient was walking daily."))
        ([] : List GEEntity) = [⟨"walking", "Activity", "walking"⟩] ∧
      extract oEmbedFail "The patient was walking daily." = [] := by
  refine ⟨by decide, by decide⟩

end GraphNodeExtractor

namespace UmlsNodeExtractor

/-- C6 (amended).  In the 15-prompt pipeline the claim holds: when the
encoder call raises, `extract` still returns one record per surviving
entity with `name_embedding = None`.  (In the 4-cluster pipeline an
embedding failure empties the result instead, cf. the C6 counterexample.) -/
theorem c6_amended_embedding_failure
    (stage1 : List (Except Unit (List (String × String))))
    (filterResp : Except Unit (Option (List (String × String))))
    (useFilter : Bool)
    (embed : List String → Except Unit (List (List Int)))
    (text : String)
    (htext : pyStrip text ≠ "")
    (hfound : foundOf stage1 ≠ [])
    (hemb : embed ((stage2 stage1 filterResp useFilter text).map (·.1)) = .error ()) :
    extract stage1 filterResp useFilter embed text =
      (stage2 stage1 filterResp useFilter text).map (fun p => ⟨p.1, p.2, none⟩) := by
  unfold extract
  rw [if_neg htext, if_neg hfound]
  by_cases hu : stage2 stage1 filterResp useFilter text = []
  · simp [hu]
  · rw [if_neg hu, hemb]

/-- Witness for the amended C6 at a concrete input: one prompt extracts
two candidates, the filter is disabled, and the encoder raises. -/
theorem c6_amended_witness :
    extract [.ok [("fever", "Finding"), ("cough", "Finding")]] (.ok none) false
        (fun _ => .error ()) "Patient has fever and cough." =
      [⟨"fever", "Finding", none⟩, ⟨"cough", "Finding", none⟩] := by
  have h := c6_amended_embedding_failure
    [.ok [("fever", "Finding"), ("cough", "Finding")]] (.ok none) false
    (fun _ => .error ()) "Patient has fever and cough."
    (by decide) (by decide) (by rfl)
  rw [h]
  decide

end UmlsNodeExtractor

namespace GraphNodeExtractor

/-- C7.  A raised Stage-1 cluster call is isolated: the failing cluster is
degraded to the empty result inside `extract_entities` (no exception
leaves `extract`, which is a total function of the call outcomes), the
whole pipeline behaves exactly as if that cluster had returned no
entities, and — as the concrete run shows — the final entity list still
carries the entities of the succeeding clusters.  The last conjunct states
the analogous isolation for the 15-prompt pipeline's stage-1 loop
(`except Exception: continue`). -/
theorem c7_cluster_failure_isolated :
    (∀ (o : GEOracle) (text : String), o.phenomenon = .error () →
      allEntities o text =
          [("activity", extract_entities text o.activity),
           ("phenomenon", []),
           ("physical_object", extract_entities text o.physical_object),
           ("conceptual_entity", extract_entities text o.conceptual_entity)] ∧
        extract o text = extract { o with phenomenon := .ok [] } text) ∧
    (extract oPhenomenonFail "The patient was walking daily." =
      [⟨"walking", "Activity", [1]⟩]) ∧
    (∀ (pre post : List (Except Unit (List (String × String)))),
      UmlsNodeExtractor.foundOf (pre ++ .error () :: post) =
        UmlsNodeExtractor.foundOf (pre ++ .ok [] :: post)) := by
  refine ⟨?_, by decide, ?_⟩
  · intro o text hph
    have hall : allEntities o text =
        allEntities { o with phenomenon := .ok [] } text := by
      simp [allEntities, hph, extract_entities_error, extract_entities_ok_nil]
    refine ⟨?_, extract_congr text hall rfl rfl⟩
    simp [allEntities, hph, extract_entities_error]
  · intro pre post
    unfold UmlsNodeExtractor.foundOf
    rw [List.foldl_append, List.foldl_append]
    simp

/-- Witness for C7 at the concrete failing oracle. -/
theorem c7_witness :
    allEntities oPhenomenonFail "The patient was walking daily." =
        [("activity", extract_entities "The patient was walking daily."
            oPhenomenonFail.activity),
         ("phenomenon", []),
         ("physical_object", extract_entities "The patient was walking daily."
            oPhenomenonFail.physical_object),
         ("conceptual_entity", extract_entities "The patient was walking daily."
            oPhenomenonFail.conceptual_entity)] ∧
      extract oPhenomenonFail "The patient was walking daily." =
        extract { oPhenomenonFail with phenomenon := .ok [] }
          "The patient was walking daily." :=
  c7_cluster_failure_isolated.1 oPhenomenonFail "The patient was walking daily." rfl

end GraphNodeExtractor

namespace EdgeExtractor

/-! ## `backend/graph_extractor/edge_extractor.py`

`EdgeExtractor.extract` builds UMLS prompt features, issues one relation
call, and normalizes the response.  The model call together with the
shape normalization (dict with an `edges` key / raw list / JSON string) is
the oracle boundary: the oracle carries the list of edge dicts
(`edges_data`) on success and `.error` for the `except Exception` path —
including a raised `json.loads`.  The UMLS features only populate the
prompt and cannot change which edges are returned. -/

/-- One node dict passed into `extract` (the `node.get(…, "")` fields). -/
structure NodeDict where
  name : String
  semantic_type : String
  mention : String
deriving DecidableEq, Repr

/-- One edge dict from the model response, before conversion; absent keys
are `none`.  `obj` models the `object` key. -/
structure EdgeData where
  source : Option String
  target : Option String
  relation : Option String
  subject : Option String
  predicate : Option String
  obj : Option String
  confidence : Option Int
deriving DecidableEq, Repr

/-- The `Edge` schema: `source`, `target` and `relation` are required. -/
structure Edge where
  source : String
  target : String
  relation : String
  confidence : Option Int
deriving DecidableEq, Repr

/-- Embeds `convert_to_edge`: rename `subject → source`,
`predicate → relation`, `object → target` (each overwriting the schema key
when present), then construct an `Edge`, which fails — yielding `none` —
exactly when one of the three required fields is missing. -/
def convert_to_edge (e : EdgeData) : Option Edge :=
  let src := match e.subject with | some s => some s | none => e.source
  let rel := match e.predicate with | some s => some s | none => e.relation
  let tgt := match e.obj with | some s => some s | none => e.target
  match src, tgt, rel with
  | some s, some t, some r => some ⟨s, t, r, e.confidence⟩
  | _, _, _ => none

/-- Embeds `EdgeExtractor.extract`: blank text yields no edges; a raised
call or parse yields no edges; otherwise every response edge that converts
is kept, in order.  The `nodes` argument only populates the prompt. -/
def extract (text : String) (nodes : List NodeDict)
    (resp : Except Unit (List EdgeData)) : List Edge :=
  if pyStrip text = "" then []
  else
    match resp with
    | .error _ => []
    | .ok edges_data => edges_data.filterMap convert_to_edge

/-- C5 (counterexample).  An edge whose source names no passed-in entity
is kept: with the single node `fever`, a response edge
`pneumonia –causes→ fever` survives conversion unchanged even though
`pneumonia` is not the text of any entity in the call. -/
theorem c5_counterexample :
    extract "Patient has fever." [⟨"fever", "Finding", "fever"⟩]
        (.ok [⟨none, none, none, some "pneumonia", some "causes",
          some "fever", none⟩]) =
      [⟨"pneumonia", "fever", "causes", none⟩] ∧
    "pneumonia" ∉ ([⟨"fever", "Finding", "fever"⟩] : List NodeDict).map (·.name) := by
  refine ⟨by decide, by decide⟩

/-- C5 (amended).  `extract` performs no membership check of edge
endpoints against the passed-in entities: its result is independent of the
`nodes` list, and on a successful call it keeps exactly the response edges
that still have a source, target and relation after key renaming —
whatever strings they reference. -/
theorem c5_amended_no_endpoint_check :
    (∀ (text : String) (nodes nodes' : List NodeDict)
        (resp : Except Unit (List EdgeData)),
      extract text nodes resp = extract text nodes' resp) ∧
    (∀ (text : String) (nodes : List NodeDict) (edges_data : List EdgeData),
      pyStrip text ≠ "" →
      extract text nodes (.ok edges_data) = edges_data.filterMap convert_to_edge) := by
  refine ⟨fun text nodes nodes' resp => rfl, fun text nodes edges_data h => ?_⟩
  unfold extract
  rw [if_neg h]

/-- Witness for the amended C5 at the counterexample's concrete input. -/
theorem c5_amended_witness :
    extract "Patient has fever." [⟨"fever", "Finding", "fever"⟩]
        (.ok [⟨none, none, none, some "pneumonia", some "causes",
          some "fever", none⟩]) =
      ([⟨none, none, none, some "pneumonia", some "causes",
          some "fever", none⟩] : List EdgeData).filterMap convert_to_edge :=
  c5_amended_no_endpoint_check.2 "Patient has fever."
    [⟨"fever", "Finding", "fever"⟩]
    [⟨none, none, none, some "pneumonia", some "causes", some "fever", none⟩]
    (by decide)

end EdgeExtractor

namespace UmlsEntityLookup

/-! ## `backend/utils/umls_entity_lookup.py`, `build_umls_prompt_features`

Steps 2–3 of the builder are embedded over their connection-level inputs:
`rows` is the result of the `mrrel` query restricted to the candidate CUIs
(in table-scan order, as returned by `fetchall`), and `entity_cui_map` is
the per-entity candidate-CUI list assembled in step 1 (the ontology store
is the external collaborator).  `rel_map` caps each directed CUI pair at
`max_relations_per_pair` while indexing, and the pair loop caps the
collected relation features of every unordered entity pair at the same
bound, scanning `(cui_i, cui_j)` then `(cui_j, cui_i)`.  The Python
`break` statements are embedded as fold guards: once the cap is reached no
later iteration can append, which is the same result. -/

/-- One row of the `mrrel` relation query:
`(CUI1, CUI2, REL, RELA, SAB)`. -/
structure RelRow where
  cui1 : String
  cui2 : String
  rel : String
  rela : String
  sab : String
deriving DecidableEq, Repr

/-- One relation feature emitted for an entity pair. -/
structure RelFeat where
  source_cui : String
  target_cui : String
  rel : String
  rela : String
  sab : String
deriving DecidableEq, Repr

/-- Embeds `rel_map.setdefault(key, [])` plus the capped append
`if len(rel_list) < max_relations_per_pair: rel_list.append(…)`. -/
def relMapAdd (m : List ((String × String) × List RelRow)) (key : String × String)
    (r : RelRow) (maxR : Nat) : List ((String × String) × List RelRow) :=
  match m with
  | [] => [(key, if 0 < maxR then [r] else [])]
  | (k, rs) :: rest =>
      if k = key then (k, if rs.length < maxR then rs ++ [r] else rs) :: rest
      else (k, rs) :: relMapAdd rest key r maxR

/-- The `rel_map` index over the scanned rows, capped per directed pair. -/
def relMapBuild (rows : List RelRow) (maxR : Nat) :
    List ((String × String) × List RelRow) :=
  rows.foldl (fun m r => relMapAdd m (r.cui1, r.cui2) r maxR) []

/-- Embeds the inner loop `if key in rel_map: for r in rel_map[key]: …`
with its capped append into `pair_relations`. -/
def addRels (cap : Nat) (relMap : List ((String × String) × List RelRow))
    (key : String × String) (acc : List RelFeat) : List RelFeat :=
  match alookup key relMap with
  | none => acc
  | some rs =>
      rs.foldl (fun a r =>
        if cap ≤ a.length then a
        else a ++ [⟨key.1, key.2, r.rel, r.rela, r.sab⟩]) acc

/-- Embeds the `pair_relations` collection for one unordered entity pair:
both lookup directions over the two candidate-CUI lists, capped at
`max_relations_per_pair`. -/
def pairRelations (cap : Nat) (relMap : List ((String × String) × List RelRow))
    (cuis_i cuis_j : List String) : List RelFeat :=
  cuis_i.foldl (fun acc ci =>
    if cap ≤ acc.length then acc
    else cuis_j.foldl (fun acc2 cj =>
      if cap ≤ acc2.length then acc2
      else addRels cap relMap (cj, ci) (addRels cap relMap (ci, cj) acc2)) acc) []

/-- One entry of the returned `edges` list. -/
structure UMLSEdge where
  source_index : Nat
  target_index : Nat
  relations : List RelFeat
deriving DecidableEq, Repr

/-- Embeds the double loop `for i in range(n): for j in range(i+1, n)`:
all ordered pairs of positions with the first strictly earlier. -/
def pairsOf {α : Type} : List α → List (α × α)
  | [] => []
  | x :: xs => xs.map (fun y => (x, y)) ++ pairsOf xs

/-- The `umls_edges` output: one entry per unordered entity pair with a
nonempty capped relation list. -/
def umlsEdges (entity_cui_map : List (Nat × List String))
    (relMap : List ((String × String) × List RelRow)) (cap : Nat) : List UMLSEdge :=
  (pairsOf entity_cui_map).filterMap (fun pq =>
    let pr := pairRelations cap relMap pq.1.2 pq.2.2
    if pr = [] then none else some ⟨pq.1.1, pq.2.1, pr⟩)

lemma foldl_capped_append_le {β : Type} (rs : List β) (f : β → RelFeat) (cap : Nat) :
    ∀ a : List RelFeat, a.length ≤ cap →
      (rs.foldl (fun a r => if cap ≤ a.length then a else a ++ [f r]) a).length ≤ cap := by
  induction rs with
  | nil => intro a h; exact h
  | cons r rest ih =>
      intro a h
      simp only [List.foldl_cons]
      by_cases hc : cap ≤ a.length
      · rw [if_pos hc]
        exact ih a h
      · rw [if_neg hc]
        exact ih _ (by simp; omega)

lemma addRels_length_le (cap : Nat) (relMap : List ((String × String) × List RelRow))
    (key : String × String) (acc : List RelFeat) (h : acc.length ≤ cap) :
    (addRels cap relMap key acc).length ≤ cap := by
  unfold addRels
  cases alookup key relMap with
  | none => exact h
  | some rs => exact foldl_capped_append_le rs _ cap acc h

lemma pairRelations_length_le (cap : Nat)
    (relMap : List ((String × String) × List RelRow)) (cuis_i cuis_j : List String) :
    (pairRelations cap relMap cuis_i cuis_j).length ≤ cap := by
  unfold pairRelations
  have hstep : ∀ (acc : List RelFeat), acc.length ≤ cap → ∀ ci,
      (cuis_j.foldl (fun acc2 cj =>
        if cap ≤ acc2.length then acc2
        else addRels cap relMap (cj, ci) (addRels cap relMap (ci, cj) acc2)) acc).length ≤ cap := by
    intro acc hacc ci
    induction cuis_j generalizing acc with
    | nil => exact hacc
    | cons cj rest ih =>
        simp only [List.foldl_cons]
        by_cases hc : cap ≤ acc.length
        · rw [if_pos hc]
          exact ih acc hacc
        · rw [if_neg hc]
          exact ih _ (addRels_length_le _ _ _ _ (addRels_length_le _ _ _ _ (le_of_lt (lt_of_not_le hc))))
  have houter : ∀ (acc : List RelFeat), acc.length ≤ cap →
      (cuis_i.foldl (fun acc ci =>
        if cap ≤ acc.length then acc
        else cuis_j.foldl (fun acc2 cj =>
          if cap ≤ acc2.length then acc2
          else addRels cap relMap (cj, ci) (addRels cap relMap (ci, cj) acc2)) acc) acc).length ≤ cap := by
    intro acc hacc
    induction cuis_i generalizing acc with
    | nil => exact hacc
    | cons ci rest ih =>
        simp only [List.foldl_cons]
        by_cases hc : cap ≤ acc.length
        · rw [if_pos hc]
          exact ih acc hacc
        · rw [if_neg hc]
          exact ih _ (hstep acc (le_of_lt (lt_of_not_le hc)) ci)
  exact houter [] (by simp)

/-- The five relation rows of the spec's C8 scenario: five relations
available between the concept pair `(C0001, C0002)`, in scan order. -/
def rowsC8 : List RelRow :=
  [⟨"C0001", "C0002", "RO", "affects", "SAB1"⟩,
   ⟨"C0001", "C0002", "RO", "causes", "SAB2"⟩,
   ⟨"C0001", "C0002", "RO", "treats", "SAB3"⟩,
   ⟨"C0001", "C0002", "RO", "prevents", "SAB4"⟩,
   ⟨"C0001", "C0002", "RO", "related_to", "SAB5"⟩]

/-- C8.  Every emitted entity-pair entry carries at most
`max_relations_per_pair` relation features (both lookup directions
counted); and in the spec's scenario — `max_relations_per_pair = 2`, five
relations available between the two entities' concepts — exactly the
first two rows in table-scan order are returned. -/
theorem c8_relations_capped :
    (∀ (rows : List RelRow) (entity_cui_map : List (Nat × List String))
        (maxR : Nat) (e : UMLSEdge),
      e ∈ umlsEdges entity_cui_map (relMapBuild rows maxR) maxR →
      e.relations.length ≤ maxR) ∧
    umlsEdges [(0, ["C0001"]), (1, ["C0002"])] (relMapBuild rowsC8 2) 2 =
      [⟨0, 1, [⟨"C0001", "C0002", "RO", "affects", "SAB1"⟩,
               ⟨"C0001", "C0002", "RO", "causes", "SAB2"⟩]⟩] := by
  refine ⟨?_, by decide⟩
  intro rows entity_cui_map maxR e he
  simp only [umlsEdges, List.mem_filterMap] at he
  obtain ⟨pq, _, hsome⟩ := he
  by_cases hpr : pairRelations maxR (relMapBuild rows maxR) pq.1.2 pq.2.2 = []
  · simp [hpr] at hsome
  · simp only [if_neg hpr, Option.some.injEq] at hsome
    rw [← hsome]
    exact pairRelations_length_le maxR (relMapBuild rows maxR) pq.1.2 pq.2.2

/-- Witness for C8: the cap instantiated at the concrete five-row store. -/
theorem c8_witness :
    (⟨0, 1, [⟨"C0001", "C0002", "RO", "affects", "SAB1"⟩,
             ⟨"C0001", "C0002", "RO", "causes", "SAB2"⟩]⟩ : UMLSEdge).relations.length ≤ 2 :=
  c8_relations_capped.1 rowsC8 [(0, ["C0001"]), (1, ["C0002"])] 2 _ (by decide)

end UmlsEntityLookup

namespace GeminiClient

/-! ## `backend/llm/providers/gemini/gemini_client.py`, `GeminiClient.generate`

The retry loop of one logical `generate` call is embedded for the case the
claim quantifies over: every attempt fails with a quota/rate-limit
classified error.  Under that assumption the loop's behaviour is a pure
function of the pool size `n = len(api_keys)` and `max_tries`; the trace
records, per attempt, the credential index used
(`self.current_key_index`) and the exponential-backoff wait slept just
before the attempt (`none` when the attempt follows immediately).
`keys_tried` is the Python set of the same name — note the source adds the
*rotated-to* index after each rotation, never the index that just failed;
`_rotate_api_key` succeeds whenever the pool has at least two keys and
advances the cursor by one modulo the pool size. -/

/-- Embeds `keys_tried.add(i)` on a set represented as a duplicate-free
list. -/
def insertNew (x : Nat) (s : List Nat) : List Nat :=
  if x ∈ s then s else s ++ [x]

/-- One step per attempt of the `for attempt in range(max_tries)` loop,
all attempts failing with a quota error: if `len(keys_tried) < n` the
client rotates (when the pool allows it) and retries immediately;
otherwise it sleeps `2 ** attempt` before the next attempt unless this was
the last one. -/
def quotaLoop (n maxTries : Nat) :
    Nat → Nat → Nat → List Nat → Option Nat → List (Nat × Option Nat)
  | 0, _, _, _, _ => []
  | fuel + 1, attempt, cur, tried, pending =>
      (cur, pending) ::
        (if tried.length < n then
          (if 1 < n then
            quotaLoop n maxTries fuel (attempt + 1) ((cur + 1) % n)
              (insertNew ((cur + 1) % n) tried) none
          else
            quotaLoop n maxTries fuel (attempt + 1) cur tried none)
        else
          quotaLoop n maxTries fuel (attempt + 1) cur tried
            (if attempt < maxTries - 1 then some (2 ^ attempt) else none))

/-- The attempt trace of one all-quota-failures `generate` call: starting
at credential 0 with an empty `keys_tried`. -/
def quotaTrace (n maxTries : Nat) : List (Nat × Option Nat) :=
  quotaLoop n maxTries maxTries 0 0 [] none

/-- C3 (counterexample).  With pool `[A, B, C]` (indices 0, 1, 2) and
`max_tries = 5`, quota errors on A, B and C do *not* trigger backoff: the
fourth attempt re-tries A immediately (no sleep before it); the first
backoff (`2 ** 3` seconds) precedes only the fifth attempt. -/
theorem c3_counterexample :
    quotaTrace 3 5 =
        [(0, none), (1, none), (2, none), (0, none), (0, some 8)] ∧
      (quotaTrace 3 5)[3]? = some (0, none) := by
  refine ⟨by decide, by decide⟩

lemma quotaLoop_sat (n maxTries : Nat) :
    ∀ (fuel : Nat) (attempt cur : Nat) (tried : List Nat) (pending : Option Nat),
      n ≤ tried.length →
      quotaLoop n maxTries fuel attempt cur tried pending =
        (List.range fuel).map (fun j =>
          (cur, if j = 0 then pending
                else if attempt + j - 1 < maxTries - 1 then
                  some (2 ^ (attempt + j - 1)) else none)) := by
  intro fuel
  induction fuel with
  | zero => intro attempt cur tried pending _; simp [quotaLoop]
  | succ fuel ih =>
      intro attempt cur tried pending hlen
      rw [quotaLoop, if_neg (by omega), ih (attempt + 1) cur tried _ hlen]
      rw [List.range_succ_eq_map, List.map_cons, List.map_map]
      refine congrArg₂ _ (by simp) ?_
      apply List.map_eq_map_iff.mpr
      intro j _
      simp only [Function.comp]
      by_cases hj : j = 0
      · subst hj
        simp [Nat.succ_ne_zero]
      · have h1 : ¬ (Nat.succ j = 0) := Nat.succ_ne_zero j
        have h2 : attempt + 1 + j - 1 = attempt + Nat.succ j - 1 := by omega
        simp only [hj, if_neg h1, if_false, h2]

lemma quotaLoop_grow (n maxTries : Nat) (hn : 2 ≤ n) :
    ∀ (fuel : Nat) (k : Nat), k < n →
      quotaLoop n maxTries fuel k k (List.range' 1 k) none =
        (List.range fuel).map (fun j =>
          (if k + j < n then k + j else 0,
           if n < k + j ∧ k + j - 1 < maxTries - 1 then
             some (2 ^ (k + j - 1)) else none)) := by
  intro fuel
  induction fuel with
  | zero => intro k _; simp [quotaLoop]
  | succ fuel ih =>
      intro k hk
      have hlen : (List.range' 1 k).length = k := List.length_range' ..
      rw [quotaLoop, if_pos (show (List.range' 1 k).length < n by omega),
        if_pos (show 1 < n by omega)]
      rw [List.range_succ_eq_map, List.map_cons, List.map_map]
      have hhead : (k, (none : Option Nat)) =
          (if k + 0 < n then k + 0 else 0,
           if n < k + 0 ∧ k + 0 - 1 < maxTries - 1 then
             some (2 ^ (k + 0 - 1)) else none) := by
        have h1 : ¬ n < k := by omega
        simp [hk, h1]
      refine congrArg₂ _ hhead ?_
      by_cases hkn : k + 1 < n
      · have hmod : (k + 1) % n = k + 1 := Nat.mod_eq_of_lt hkn
        rw [hmod]
        have hins : insertNew (k + 1) (List.range' 1 k) = List.range' 1 (k + 1) := by
          unfold insertNew
          rw [if_neg (by simp [List.mem_range']; omega)]
          rw [List.range'_1_concat]
          simp [Nat.add_comm]
        rw [hins, ih (k + 1) hkn]
        apply List.map_eq_map_iff.mpr
        intro j _
        simp only [Function.comp_apply]
        have h1 : k + 1 + j = k + Nat.succ j := by omega
        rw [h1]
      · have hkn' : k + 1 = n := by omega
        have hmod : (k + 1) % n = 0 := by rw [hkn']; exact Nat.mod_self n
        rw [hmod]
        have hins : n ≤ (insertNew 0 (List.range' 1 k)).length := by
          unfold insertNew
          rw [if_neg (by simp [List.mem_range']; intro x _; omega)]
          simp [hlen]
          omega
        rw [quotaLoop_sat n maxTries fuel (k + 1) 0 _ none hins]
        apply List.map_eq_map_iff.mpr
        intro j _
        simp only [Function.comp_apply]
        by_cases hj : j = 0
        · subst hj
          have h1 : ¬ (k + Nat.succ 0 < n) := by omega
          have h2 : ¬ (n < k + Nat.succ 0) := by omega
          simp [h1, h2]
        · have h1 : ¬ (k + Nat.succ j < n) := by omega
          have h2 : n < k + Nat.succ j := by omega
          have h3 : k + 1 + j - 1 = k + Nat.succ j - 1 := by omega
          simp only [hj, if_false, if_neg h1, h2, true_and, h3]

/-- C3 (amended).  Within one all-quota-failures `generate` call with a
pool of `n ≥ 2` credentials, the attempted credential sequence is
`0, 1, …, n−1` followed by repeats of credential `0`: no credential is
attempted a second time before all `n` have been tried once, but after the
`n`-th distinct credential fails the client rotates back to the first
credential and re-tries it *immediately*; exponential backoff
(`2 ** attempt` seconds) is slept only before the attempts that follow
that immediate retry. -/
theorem c3_amended_rotation_trace (n maxTries : Nat) (hn : 2 ≤ n) :
    quotaTrace n maxTries =
      (List.range maxTries).map (fun i =>
        (if i < n then i else 0,
         if n < i then some (2 ^ (i - 1)) else none)) := by
  unfold quotaTrace
  have h0 : (List.range' 1 0) = ([] : List Nat) := rfl
  rw [show ([] : List Nat) = List.range' 1 0 from rfl,
    quotaLoop_grow n maxTries hn maxTries 0 (by omega)]
  apply List.map_eq_map_iff.mpr
  intro i hi
  have hmem := List.mem_range.mp hi
  simp only [Nat.zero_add]
  by_cases h : i < n
  · have h2 : ¬ n < i := by omega
    simp [h, h2]
  · by_cases hni : n < i
    · have h3 : i - 1 < maxTries - 1 := by omega
      simp [h, hni, h3]
    · simp [h, hni]

/-- Witness for the amended C3 at the spec's pool `[A, B, C]` with the
source's default `max_tries = 5`. -/
theorem c3_amended_witness :
    quotaTrace 3 5 =
      (List.range 5).map (fun i =>
        (if i < 3 then i else 0,
         if 3 < i then some (2 ^ (i - 1)) else none)) :=
  c3_amended_rotation_trace 3 5 (by decide)

end GeminiClient
